import Mathlib

/-!
# Verification of `spamprobe.py`

A shallow embedding of the analytical core of `spamprobe.py` (a Bayesian
spam filter) together with theorems settling the specification claims.

Embedding conventions:

* Python dicts (`words_db`, `msg_db`) are association lists with
  first-match lookup and replace-or-append update.
* Python `int` counts are `Nat` (the data model keeps them non-negative);
  probabilities use exact rationals `ℚ` in place of IEEE doubles, with the
  float literals `0.00001` / `0.99999` read as the decimal rationals they
  denote.  Error paths and discrete facts (which division is reached,
  which probabilities are selected) are insensitive to this choice, but
  range guarantees are not: in doubles the combiner's sum `p1 + p2`
  rounds to `p1` once `p2` falls below half an ulp of `p1` (already at
  six factors clamped to `0.99999`, where `p2 = 1e-30`), so the running
  program can return exactly `1.0` where the rational idealization stays
  strictly below `1`.
* Python `/` raises `ZeroDivisionError` on a zero denominator; fallible
  computations therefore return `Except PyErr _` (or carry an
  `Option PyErr` next to the final state for the mutating `learn`).
* The message-feature extractor `_process_mail` walks an email/HTML
  structure supplied by the standard library; a message is abstracted as
  its header key material plus the token sequence the extractor yields,
  so every statement quantifying over messages quantifies over that
  token sequence.
* The source line `words_db[w] = (today(), spam_no, ham_no)` refers to
  the unbound name `today` (the file defines `_today` but never calls
  it); evaluating it raises `NameError`, which the embedding models
  faithfully at exactly that program point.
-/

/-- Errors a Python run of the embedded code can raise. -/
inductive PyErr
  | nameError
  | zeroDivisionError
deriving DecidableEq

/-- A token statistic as stored in `words_db`:
`(lastSeenDay, spam_no, ham_no)`. -/
abbrev WordStat := Nat × Nat × Nat

/-- The token statistics store (`words_db`), a dict keyed by token. -/
abbrev WordsDb := List (String × WordStat)

/-- The message ledger (`msg_db`), a dict keyed by message identifier,
holding the boolean spam classification. -/
abbrev MsgDb := List (String × Bool)

/-- Dict lookup: first matching key. -/
def alookup (k : String) : List (String × β) → Option β
  | [] => none
  | p :: ps => if p.1 = k then some p.2 else alookup k ps

/-- Dict membership test (`k in d`). -/
def amem (k : String) (d : List (String × β)) : Bool :=
  (alookup k d).isSome

/-- Dict update (`d[k] = v`): replace the first matching entry in place,
else append. -/
def aset (k : String) (v : β) : List (String × β) → List (String × β)
  | [] => [(k, v)]
  | p :: ps => if p.1 = k then (k, v) :: ps else p :: aset k v ps

/-- A parsed message, abstracted for the embedding: its `Message-ID`
header (if any), its raw `Date` and `From` header values (used for the
fallback ledger key), and the token sequence `_process_mail` extracts
from it. -/
structure Mail where
  messageId : Option String
  dateHdr : String
  fromHdr : String
  tokens : List String

/-- The ledger key `learn` computes: the `Message-ID` header if present,
else `"%s/%s" % (mail["Date"], mail["From"])`. -/
def mail_key (mail : Mail) : String :=
  match mail.messageId with
  | some i => i
  | none => mail.dateHdr ++ "/" ++ mail.fromHdr

/-! ## Tokenizer (`_text_parse`, source lines 77-78)

`re.split(r"\W+", text)` splits at maximal runs of non-word characters,
keeping (possibly empty) pieces between, before and after the runs; the
comprehension keeps the pieces of length `> 3`.  Word characters are
modelled as ASCII letters, digits and underscore. -/

/-- A word character for `\w` / `\W`: letter, digit or underscore. -/
def isWordChar (c : Char) : Bool :=
  c.isAlpha || c.isDigit || c == '_'

/-- The splitting scan of `re.split(r"\W+", text)`.

`inWord = true` means the scanner is accumulating the current piece
`acc` (in reverse); `inWord = false` means it is inside a separator run
(the piece before it has been emitted).  `re.split` starts in the
accumulating state with an empty piece, and a trailing separator run
yields a final empty piece. -/
def reSplitGo (inWord : Bool) (acc : List Char) : List Char → List (List Char)
  | [] => if inWord then [acc.reverse] else [[]]
  | c :: cs =>
    if inWord then
      if isWordChar c then reSplitGo true (c :: acc) cs
      else acc.reverse :: reSplitGo false [] cs
    else
      if isWordChar c then reSplitGo true [c] cs
      else reSplitGo false [] cs

/-- `_text_parse(text)`: split on runs of non-word characters, keep the
pieces longer than 3 characters. -/
def text_parse (text : String) : List String :=
  ((reSplitGo true [] text.toList).map (fun p => String.mk p)).filter
    (fun t => 3 < t.length)

/-- The maximal runs of word characters of the input, in order (the
spec's reading of the split: no empty boundary pieces). -/
def wordRunsGo (inWord : Bool) (acc : List Char) : List Char → List (List Char)
  | [] => if inWord then [acc.reverse] else []
  | c :: cs =>
    if inWord then
      if isWordChar c then wordRunsGo true (c :: acc) cs
      else acc.reverse :: wordRunsGo false [] cs
    else
      if isWordChar c then wordRunsGo true [c] cs
      else wordRunsGo false [] cs

/-- The tokenizer as the spec words it (4.1): the maximal runs of word
characters, in original left-to-right order, keeping those of length
strictly greater than 3. -/
def splitWords_spec (text : String) : List String :=
  ((wordRunsGo false [] text.toList).map (fun p => String.mk p)).filter
    (fun t => 3 < t.length)

/-- After discarding short pieces, the `re.split` scan and the
maximal-word-run scan agree, from either scanner state. -/
theorem filter_reSplitGo_eq (cs : List Char) :
    (∀ acc, (reSplitGo true acc cs).filter (fun t => 3 < t.length)
      = (wordRunsGo true acc cs).filter (fun t => 3 < t.length))
    ∧ (reSplitGo false [] cs).filter (fun t => 3 < t.length)
      = (wordRunsGo false [] cs).filter (fun t => 3 < t.length) := by
  induction cs with
  | nil =>
    constructor
    · intro acc
      simp [reSplitGo, wordRunsGo]
    · simp [reSplitGo, wordRunsGo]
  | cons c cs ih =>
    by_cases hw : isWordChar c
    · constructor
      · intro acc
        simp only [reSplitGo, wordRunsGo, hw, if_true, ite_true]
        exact ih.1 (c :: acc)
      · simp only [reSplitGo, wordRunsGo, hw, if_true, ite_true]
        exact ih.1 [c]
    · constructor
      · intro acc
        simp only [reSplitGo, wordRunsGo, hw, Bool.false_eq_true, if_true, if_false,
          ite_true, ite_false, List.filter_cons]
        rw [ih.2]
      · simp only [reSplitGo, wordRunsGo, hw, Bool.false_eq_true, if_true, if_false,
          ite_true, ite_false]
        exact ih.2

/-- Starting the `re.split` scan (accumulating an initially empty piece)
and the word-run scan (outside any run) agree after the length filter. -/
theorem filter_reSplitGo_start (cs : List Char) :
    (reSplitGo true [] cs).filter (fun t => 3 < t.length)
      = (wordRunsGo false [] cs).filter (fun t => 3 < t.length) := by
  cases cs with
  | nil => simp [reSplitGo, wordRunsGo]
  | cons c cs =>
    by_cases hw : isWordChar c
    · simp only [reSplitGo, wordRunsGo, hw, if_true, ite_true]
      exact (filter_reSplitGo_eq cs).1 [c]
    · simp only [reSplitGo, wordRunsGo, hw, Bool.false_eq_true, if_true, if_false,
        ite_true, ite_false, List.filter_cons, List.reverse_nil, List.length_nil]
      simpa using (filter_reSplitGo_eq cs).2

/-- Packing the split pieces into strings commutes with the length
filter. -/
theorem filter_map_mk (l : List (List Char)) :
    ((l.map (fun p => String.mk p)).filter (fun t => 3 < t.length))
      = (l.filter (fun p => 3 < p.length)).map (fun p => String.mk p) := by
  induction l with
  | nil => rfl
  | cons p l ih =>
    by_cases hp : 3 < p.length
    · simp only [List.map_cons, List.filter_cons]
      have hl : (String.mk p).length = p.length := rfl
      simp [hl, hp, ih]
    · simp only [List.map_cons, List.filter_cons]
      have hl : (String.mk p).length = p.length := rfl
      simp [hl, hp, ih]

/-- C8: `_text_parse` splits its input on maximal runs of non-word
characters (word characters: letters, digits, underscore), keeps exactly
the pieces of length strictly greater than 3 in original left-to-right
order with duplicates preserved (that is, it agrees with the spec's
`splitWords`); on `"Hello, world! foo"` it yields
`["Hello", "world"]` and on `""` it yields `[]`. -/
theorem text_parse_meets_spec :
    (∀ text : String, text_parse text = splitWords_spec text)
    ∧ text_parse "Hello, world! foo" = ["Hello", "world"]
    ∧ text_parse "" = [] := by
  refine ⟨fun text => ?_, ?_, ?_⟩
  · unfold text_parse splitWords_spec
    rw [filter_map_mk, filter_map_mk, filter_reSplitGo_start]
  · decide
  · decide

/-! ## Learner (`learn`, source lines 123-164)

The source first computes the ledger key, tests membership, and then
executes `msg_db[msg_id] = spam` *before* reading
`prev_spam = msg_db[msg_id]`; afterwards it walks the extracted tokens
and ends each iteration with `words_db[w] = (today(), spam_no, ham_no)`,
where `today` is an unbound name (a `NameError` at evaluation time). -/

/-- The token loop of `learn` (source lines 149-164).  Each iteration
reads the stored triple, applies the reclassification decrement and the
increment for the new label, and then evaluates
`(today(), spam_no, ham_no)` — which raises `NameError` because `today`
is unbound, so no store write ever happens. -/
def learnLoop (previous prev_spam spam : Bool) (wdb : WordsDb) :
    List String → WordsDb × Option PyErr
  | [] => (wdb, none)
  | w :: _ws =>
    let counts : Nat × Nat :=
      match alookup w wdb with
      | some (_, spam_no, ham_no) =>
        if previous then
          if prev_spam then (max 0 (spam_no - 1), ham_no)
          else (spam_no, max 0 (ham_no - 1))
        else (spam_no, ham_no)
      | none => (0, 0)
    let _counts' : Nat × Nat :=
      if spam then (counts.1 + 1, counts.2) else (counts.1, counts.2 + 1)
    (wdb, some PyErr.nameError)

/-- `learn(words_db, msg_db, mail, spam)`: returns the final state of
both stores together with the error, if one was raised. -/
def learn (wdb : WordsDb) (mdb : MsgDb) (mail : Mail) (spam : Bool) :
    WordsDb × MsgDb × Option PyErr :=
  let msg_id := mail_key mail
  let previous := amem msg_id mdb
  let mdb1 := aset msg_id spam mdb
  if previous then
    let prev_spam := (alookup msg_id mdb1).getD spam
    if prev_spam = spam then
      (wdb, mdb1, none)
    else
      let r := learnLoop previous prev_spam spam wdb mail.tokens
      (r.1, mdb1, r.2)
  else
    let r := learnLoop previous false spam wdb mail.tokens
    (r.1, mdb1, r.2)

/-- Looking a key up right after setting it yields the value just set. -/
theorem alookup_aset_self (k : String) (v : β) (d : List (String × β)) :
    alookup k (aset k v d) = some v := by
  induction d with
  | nil => simp [aset, alookup]
  | cons p ps ih =>
    by_cases hp : p.1 = k
    · simp [aset, alookup, hp]
    · simp [aset, alookup, hp, ih]

/-- C1 (code bug): on a fresh message carrying one extracted token,
`learn` does not complete: the store write
`words_db[w] = (today(), spam_no, ham_no)` evaluates the unbound name
`today` (the source defines `_today` but never calls it), so `learn`
raises `NameError` after recording the ledger entry and before storing
any token statistic. -/
theorem learn_new_message_raises_name_error :
    learn [] [] ⟨some "msg1", "", "", ["token1"]⟩ true
      = ([], [("msg1", true)], some PyErr.nameError) := by
  decide

/-- C2 (code bug): relearning an already-seen message with the opposite
label leaves every token count unchanged.  The source overwrites
`msg_db[msg_id] = spam` before reading `prev_spam = msg_db[msg_id]`, so
`prev_spam == spam` always holds, `learn` returns at the
"not reclassified" early exit, and the decrement/increment branch is
unreachable: here message `m1`, learned as ham with token `token1` at
counts `(spam=2, ham=3)`, is relearned as spam — the ledger flips to
spam but the counts stay `(2, 3)` instead of becoming `(3, 2)`. -/
theorem learn_reclassify_leaves_counts_unchanged :
    learn [("token1", (5, 2, 3))] [("m1", false)] ⟨some "m1", "", "", ["token1"]⟩ true
      = ([("token1", (5, 2, 3))], [("m1", true)], none) := by
  decide

/-- C10: `learn` updates the ledger before touching any token
statistic, so whenever it raises an error during token-statistics
processing, the ledger afterwards already maps the message identifier
to the new label (and the token store keeps whatever state the aborted
loop left, with no rollback). -/
theorem learn_error_leaves_ledger_updated (wdb : WordsDb) (mdb : MsgDb)
    (mail : Mail) (spam : Bool) (e : PyErr)
    (herr : (learn wdb mdb mail spam).2.2 = some e) :
    alookup (mail_key mail) (learn wdb mdb mail spam).2.1 = some spam := by
  unfold learn at herr ⊢
  by_cases hprev : amem (mail_key mail) mdb
  · simp only [hprev, if_true, ite_true] at herr ⊢
    by_cases hsame : (alookup (mail_key mail) (aset (mail_key mail) spam mdb)).getD spam = spam
    · simp only [hsame, if_true, ite_true] at herr ⊢
      exact alookup_aset_self _ _ _
    · simp only [hsame, if_false, ite_false] at herr ⊢
      exact alookup_aset_self _ _ _
  · simp only [hprev, Bool.false_eq_true, if_false, ite_false] at herr ⊢
    exact alookup_aset_self _ _ _

/-- Witness for C10 at a concrete erroring call. -/
theorem learn_error_leaves_ledger_updated_witness :
    (learn [] [] ⟨some "msg1", "", "", ["token1"]⟩ true).2.2 = some PyErr.nameError
    ∧ alookup "msg1" (learn [] [] ⟨some "msg1", "", "", ["token1"]⟩ true).2.1
        = some true :=
  ⟨by decide,
   learn_error_leaves_ledger_updated [] [] ⟨some "msg1", "", "", ["token1"]⟩ true
     PyErr.nameError (by decide)⟩

/-! ## Scorer (`probe`, source lines 166-206)

Totals are counted from the ledger values; each extracted token present
in `words_db` contributes one clamped probability (Python `/` raises
`ZeroDivisionError` on a zero denominator, modelled by explicit checks
at exactly the places the source divides); the word-selection step uses
Python slicing (`all_p[-max_words:] + all_p[:max_words]` after a stable
sort by the key `n - 0.5`), and the product combiner finishes. -/

/-- Number of ledger entries recorded as spam. -/
def spam_total (mdb : MsgDb) : Nat :=
  mdb.countP (fun p => p.2)

/-- Number of ledger entries recorded as ham. -/
def ham_total (mdb : MsgDb) : Nat :=
  mdb.countP (fun p => !p.2)

/-- The collection loop of `probe` (source lines 187-197): for each
extracted token present in `words_db`, compute
`pr_s_w = (spam_no/spam_total) / (ham_no/ham_total + spam_no/spam_total)`,
clamp it into `[0.00001, 0.99999]`, and append it; a zero denominator
raises `ZeroDivisionError` at the corresponding division. -/
def collectPs (wdb : WordsDb) (st ht : Nat) : List String → Except PyErr (List ℚ)
  | [] => .ok []
  | w :: ws =>
    match alookup w wdb with
    | none => collectPs wdb st ht ws
    | some (_, spam_no, ham_no) =>
      if st = 0 then .error .zeroDivisionError
      else if ht = 0 then .error .zeroDivisionError
      else
        let pr_w_s : ℚ := (spam_no : ℚ) / (st : ℚ)
        let pr_w_h : ℚ := (ham_no : ℚ) / (ht : ℚ)
        if pr_w_h + pr_w_s = 0 then .error .zeroDivisionError
        else
          let pr_s_w := pr_w_s / (pr_w_h + pr_w_s)
          let pr_s_w := min ((99999 : ℚ) / 100000) pr_s_w
          let pr_s_w := max ((1 : ℚ) / 100000) pr_s_w
          (collectPs wdb st ht ws).map (fun l => pr_s_w :: l)

/-- The word-selection slice (source lines 199-200):
`all_p.sort(key=lambda n: n-0.5); all_p = all_p[-max_words:] + all_p[:max_words]`.
Python's `l[-m:]` is the whole list when `m = 0` (since `-0 == 0`) and
the last `m` elements otherwise; `l[:m]` is the first `m` elements. -/
def pySelect (l : List ℚ) (m : Nat) : List ℚ :=
  let s := l.mergeSort (fun a b => decide (a - 1/2 ≤ b - 1/2))
  (if m = 0 then s else s.drop (s.length - m)) ++ s.take m

/-- The probabilities that enter the product combiner (source lines
198-200): the slice of the sorted list when more than `2*max_words`
were collected, the collected list itself otherwise. -/
def selectedPs (all_p : List ℚ) (max_words : Nat) : List ℚ :=
  if all_p.length > max_words * 2 then pySelect all_p max_words else all_p

/-- The product pass of the combiner (source lines 201-204):
`p1 = p2 = 1; for p in all_p: p1 *= p; p2 *= 1 - p`, returned as
`(p1, p2)`. -/
def combineProduct (sel : List ℚ) : ℚ × ℚ :=
  sel.foldl (fun (pq : ℚ × ℚ) p => (pq.1 * p, pq.2 * (1 - p))) ((1 : ℚ), (1 : ℚ))

/-- `probe(words_db, msg_db, mail, max_words)` (source lines 166-206):
the final score is `p1 / (p1 + p2)` over the selected probabilities
(a zero denominator would raise `ZeroDivisionError`). -/
def probe (wdb : WordsDb) (mdb : MsgDb) (mail : Mail) (max_words : Nat) :
    Except PyErr ℚ :=
  match collectPs wdb (spam_total mdb) (ham_total mdb) mail.tokens with
  | .error e => .error e
  | .ok all_p =>
    if (combineProduct (selectedPs all_p max_words)).1
        + (combineProduct (selectedPs all_p max_words)).2 = 0
    then .error .zeroDivisionError
    else .ok ((combineProduct (selectedPs all_p max_words)).1
      / ((combineProduct (selectedPs all_p max_words)).1
        + (combineProduct (selectedPs all_p max_words)).2))

/-! ## Maintenance (`cleanup`) -/

/-- Modelled from the spec: the maintenance operation `cleanup` is not
defined anywhere in the source — its caller `cmd_cleanup` (source line
227) invokes it, but no definition exists.  Following spec 4.6, it
removes every token statistic whose `lastSeenDay` is more than
`maxAgeDays` days before the current day-ordinal `today` AND whose
combined count `spamCount + hamCount` is below `minCount`. -/
def cleanup (wdb : WordsDb) (max_age_days min_count today : Nat) : WordsDb :=
  wdb.filter (fun e =>
    !(decide (e.2.1 + max_age_days < today) && decide (e.2.2.1 + e.2.2.2 < min_count)))

/-- C3: `cleanup` removes from the token store exactly those entries
whose `lastSeenDay` lies more than `max_age_days` days before the
current day-ordinal and whose combined count is below `min_count`, and
removes nothing else: an entry survives iff it was present and is not
both stale and low-count. -/
theorem cleanup_removes_exactly_stale_low_count (wdb : WordsDb)
    (max_age_days min_count today : Nat) (e : String × WordStat) :
    e ∈ cleanup wdb max_age_days min_count today
      ↔ e ∈ wdb
        ∧ ¬(e.2.1 + max_age_days < today ∧ e.2.2.1 + e.2.2.2 < min_count) := by
  simp only [cleanup, List.mem_filter, Bool.not_eq_eq_eq_not, Bool.not_true,
    Bool.and_eq_false_imp, decide_eq_true_eq, decide_eq_false_iff_not, not_and,
    not_lt]

/-- A message none of whose tokens is stored contributes no
probabilities. -/
theorem collectPs_all_none (wdb : WordsDb) (st ht : Nat) :
    ∀ ws : List String, (∀ w ∈ ws, alookup w wdb = none) →
      collectPs wdb st ht ws = .ok [] := by
  intro ws
  induction ws with
  | nil => intro _; rfl
  | cons w ws ih =>
    intro hall
    have ha : alookup w wdb = none := hall w (List.mem_cons_self w ws)
    simp only [collectPs, ha]
    exact ih (fun w' hw' => hall w' (List.mem_cons_of_mem _ hw'))

/-- With a zero spam total or a zero ham total, the collection loop
raises `ZeroDivisionError` at the first stored token. -/
theorem collectPs_zero_total_error (wdb : WordsDb) (st ht : Nat)
    (h0 : st = 0 ∨ ht = 0) :
    ∀ ws : List String, (∃ w ∈ ws, (alookup w wdb).isSome) →
      collectPs wdb st ht ws = .error .zeroDivisionError := by
  intro ws
  induction ws with
  | nil =>
    rintro ⟨w, hmem, -⟩
    simp at hmem
  | cons w ws ih =>
    rintro ⟨w', hmem, hsome⟩
    cases ha : alookup w wdb with
    | none =>
      simp only [collectPs, ha]
      apply ih
      rcases List.mem_cons.mp hmem with h | h
      · subst h; rw [ha] at hsome; simp at hsome
      · exact ⟨w', h, hsome⟩
    | some t =>
      obtain ⟨d, spam_no, ham_no⟩ := t
      rcases h0 with h0 | h0
      · simp [collectPs, ha, h0]
      · by_cases hst : st = 0
        · simp [collectPs, ha, hst]
        · simp [collectPs, ha, hst, h0]

/-- With positive totals, a stored token whose two counts are both zero
makes the collection loop raise `ZeroDivisionError` (the per-token ratio
is `0/0`). -/
theorem collectPs_zero_zero_token_error (wdb : WordsDb) (st ht : Nat)
    (hst : st ≠ 0) (hht : ht ≠ 0) :
    ∀ ws : List String, (∃ w ∈ ws, ∃ d, alookup w wdb = some (d, 0, 0)) →
      collectPs wdb st ht ws = .error .zeroDivisionError := by
  intro ws
  induction ws with
  | nil =>
    rintro ⟨w, hmem, -⟩
    simp at hmem
  | cons w ws ih =>
    rintro ⟨w', hmem, d', hlk⟩
    cases ha : alookup w wdb with
    | none =>
      simp only [collectPs, ha]
      apply ih
      rcases List.mem_cons.mp hmem with h | h
      · subst h; rw [ha] at hlk; simp at hlk
      · exact ⟨w', h, d', hlk⟩
    | some t =>
      obtain ⟨d, spam_no, ham_no⟩ := t
      by_cases hz : (ham_no : ℚ) / (ht : ℚ) + (spam_no : ℚ) / (st : ℚ) = 0
      · simp [collectPs, ha, hst, hht, hz]
      · have hws : ∃ w ∈ ws, ∃ d, alookup w wdb = some (d, 0, 0) := by
          rcases List.mem_cons.mp hmem with h | h
          · subst h
            rw [ha] at hlk
            have h1 : spam_no = 0 ∧ ham_no = 0 := by
              have := Option.some.inj hlk
              exact ⟨congrArg (fun t => t.2.1) this, congrArg (fun t => t.2.2) this⟩
            exact absurd (by simp [h1.1, h1.2]) hz
          · exact ⟨w', h, d', hlk⟩
        simp [collectPs, ha, hst, hht, hz, ih hws, Except.map]

/-- Every probability the collection loop returns lies in the clamp
interval `[0.00001, 0.99999]`. -/
theorem collectPs_ok_bounds (wdb : WordsDb) (st ht : Nat) :
    ∀ (ws : List String) (l : List ℚ), collectPs wdb st ht ws = .ok l →
      ∀ p ∈ l, (1 : ℚ) / 100000 ≤ p ∧ p ≤ 99999 / 100000 := by
  intro ws
  induction ws with
  | nil =>
    intro l hl
    simp only [collectPs, Except.ok.injEq] at hl
    subst hl
    simp
  | cons w ws ih =>
    intro l hl
    cases ha : alookup w wdb with
    | none =>
      simp only [collectPs, ha] at hl
      exact ih l hl
    | some t =>
      obtain ⟨d, spam_no, ham_no⟩ := t
      simp only [collectPs, ha] at hl
      by_cases hst : st = 0
      · simp [hst] at hl
      by_cases hht : ht = 0
      · simp [hst, hht] at hl
      by_cases hz : (ham_no : ℚ) / (ht : ℚ) + (spam_no : ℚ) / (st : ℚ) = 0
      · simp [hst, hht, hz] at hl
      simp only [hst, hht, hz, if_false, ite_false] at hl
      cases hc : collectPs wdb st ht ws with
      | error e => rw [hc] at hl; simp [Except.map] at hl
      | ok l' =>
        rw [hc] at hl
        simp only [Except.map, Except.ok.injEq] at hl
        subst hl
        intro p hp
        rcases List.mem_cons.mp hp with rfl | hp
        · refine ⟨le_max_left _ _, max_le (by norm_num) (min_le_left _ _)⟩
        · exact ih l' hc p hp

/-- Both components of the product pass stay positive when every factor
lies strictly between 0 and 1. -/
theorem foldl_combine_pos :
    ∀ (l : List ℚ) (a b : ℚ), 0 < a → 0 < b → (∀ p ∈ l, 0 < p ∧ p < 1) →
      0 < (l.foldl (fun (pq : ℚ × ℚ) p => (pq.1 * p, pq.2 * (1 - p))) (a, b)).1
      ∧ 0 < (l.foldl (fun (pq : ℚ × ℚ) p => (pq.1 * p, pq.2 * (1 - p))) (a, b)).2 := by
  intro l
  induction l with
  | nil => intro a b ha hb _; exact ⟨ha, hb⟩
  | cons p l ih =>
    intro a b ha hb hmem
    have hp := hmem p (List.mem_cons_self p l)
    simp only [List.foldl_cons]
    exact ih (a * p) (b * (1 - p)) (mul_pos ha hp.1)
      (mul_pos hb (by linarith [hp.2]))
      (fun q hq => hmem q (List.mem_cons_of_mem _ hq))

/-- `combineProduct` keeps both running products positive on factors in
`(0, 1)`. -/
theorem combineProduct_pos (l : List ℚ) (h : ∀ p ∈ l, 0 < p ∧ p < 1) :
    0 < (combineProduct l).1 ∧ 0 < (combineProduct l).2 :=
  foldl_combine_pos l 1 1 one_pos one_pos h

/-- The word-selection step only rearranges and drops collected
probabilities: everything it keeps was collected. -/
theorem mem_selectedPs (l : List ℚ) (m : Nat) (p : ℚ)
    (hp : p ∈ selectedPs l m) : p ∈ l := by
  unfold selectedPs at hp
  by_cases hlen : l.length > m * 2
  · rw [if_pos hlen] at hp
    simp only [pySelect] at hp
    rcases List.mem_append.mp hp with h | h
    · by_cases hm : m = 0
      · rw [if_pos hm] at h
        exact List.mem_mergeSort.mp h
      · rw [if_neg hm] at h
        exact List.mem_mergeSort.mp (List.drop_subset _ _ h)
    · exact List.mem_mergeSort.mp (List.take_subset _ _ h)
  · rw [if_neg hlen] at hp
    exact hp

/-- Unfolding `probe` once the collection loop has succeeded. -/
theorem probe_collect_ok (wdb : WordsDb) (mdb : MsgDb) (mail : Mail)
    (m : Nat) (all_p : List ℚ)
    (hc : collectPs wdb (spam_total mdb) (ham_total mdb) mail.tokens
      = .ok all_p) :
    probe wdb mdb mail m
      = if (combineProduct (selectedPs all_p m)).1
            + (combineProduct (selectedPs all_p m)).2 = 0
        then .error .zeroDivisionError
        else .ok ((combineProduct (selectedPs all_p m)).1
          / ((combineProduct (selectedPs all_p m)).1
            + (combineProduct (selectedPs all_p m)).2)) := by
  unfold probe
  rw [hc]

/-- Unfolding `probe` once the collection loop has raised. -/
theorem probe_collect_error (wdb : WordsDb) (mdb : MsgDb) (mail : Mail)
    (m : Nat) (e : PyErr)
    (hc : collectPs wdb (spam_total mdb) (ham_total mdb) mail.tokens
      = .error e) :
    probe wdb mdb mail m = .error e := by
  unfold probe
  rw [hc]

/-- C6, for the exact-rational idealization of the combiner: whenever
`probe` returns a value it lies strictly between 0 and 1, and for a
message none of whose extracted tokens is stored it returns exactly
`0.5`.  This is the behavior the source documents (`returns floar
0<x<1`, line 177), but not the behavior of the IEEE-double program: with
six stored tokens clamped to per-token probability `0.99999`, doubles
compute `p1 + p2 == p1` (`p2 = 1e-30` is below half an ulp of
`p1 ≈ 0.99994`) and the source returns exactly `1.0`, violating the
strict upper bound — the rounding slip recorded for this claim. -/
theorem probe_open_interval_and_neutral (wdb : WordsDb) (mdb : MsgDb)
    (mail : Mail) (m : Nat) :
    (∀ v : ℚ, probe wdb mdb mail m = .ok v → 0 < v ∧ v < 1)
    ∧ ((∀ w ∈ mail.tokens, alookup w wdb = none)
        → probe wdb mdb mail m = .ok (1 / 2)) := by
  constructor
  · intro v hv
    cases hc : collectPs wdb (spam_total mdb) (ham_total mdb) mail.tokens with
    | error e =>
      rw [probe_collect_error wdb mdb mail m e hc] at hv
      simp at hv
    | ok all_p =>
      have hbounds := collectPs_ok_bounds wdb _ _ mail.tokens all_p hc
      have hsel : ∀ p ∈ selectedPs all_p m, 0 < p ∧ p < 1 := by
        intro p hp
        have hb := hbounds p (mem_selectedPs all_p m p hp)
        constructor
        · linarith [hb.1]
        · linarith [hb.2]
      have hpos := combineProduct_pos (selectedPs all_p m) hsel
      have hne : (combineProduct (selectedPs all_p m)).1
          + (combineProduct (selectedPs all_p m)).2 ≠ 0 :=
        ne_of_gt (add_pos hpos.1 hpos.2)
      rw [probe_collect_ok wdb mdb mail m all_p hc, if_neg hne] at hv
      have hv' := Except.ok.inj hv
      subst hv'
      constructor
      · exact div_pos hpos.1 (add_pos hpos.1 hpos.2)
      · rw [div_lt_one (add_pos hpos.1 hpos.2)]
        linarith [hpos.2]
  · intro hnone
    rw [probe_collect_ok wdb mdb mail m []
      (collectPs_all_none wdb _ _ mail.tokens hnone)]
    have hsel : selectedPs ([] : List ℚ) m = [] := by
      simp [selectedPs]
    rw [hsel]
    norm_num [combineProduct]

/-- Witness for C6 at a concrete call returning a value. -/
theorem probe_open_interval_and_neutral_witness :
    (0 < (1 : ℚ) / 2 ∧ (1 : ℚ) / 2 < 1)
    ∧ probe [] [] ⟨none, "d", "f", ["aaaa"]⟩ 20 = .ok (1 / 2) := by
  have hnone : ∀ w ∈ (⟨none, "d", "f", ["aaaa"]⟩ : Mail).tokens,
      alookup w ([] : WordsDb) = none := by
    intro w _
    rfl
  have h2 := (probe_open_interval_and_neutral [] [] ⟨none, "d", "f", ["aaaa"]⟩ 20).2 hnone
  exact ⟨(probe_open_interval_and_neutral [] [] ⟨none, "d", "f", ["aaaa"]⟩ 20).1
    (1 / 2) h2, h2⟩

/-- C4 counterexample: with an empty ledger (both totals zero) but no
extracted token present in the token store, `probe` does not fail — it
returns the neutral probability `0.5`. -/
theorem probe_zero_totals_counterexample :
    spam_total [] = 0
    ∧ probe [] [] ⟨none, "d", "f", ["aaaa"]⟩ 20 = .ok (1 / 2) := by
  constructor
  · rfl
  · have hc : collectPs ([] : WordsDb) (spam_total []) (ham_total [])
        (⟨none, "d", "f", ["aaaa"]⟩ : Mail).tokens = .ok [] := by
      simp [collectPs, alookup]
    rw [probe_collect_ok [] [] ⟨none, "d", "f", ["aaaa"]⟩ 20 [] hc]
    have hsel : selectedPs ([] : List ℚ) 20 = [] := by
      simp [selectedPs]
    rw [hsel]
    norm_num [combineProduct]

/-- C4 (amended): probing with a zero spam total or a zero ham total
raises `ZeroDivisionError` whenever at least one extracted token is
present in the token store (the division by the zero total is reached
at the first such token). -/
theorem probe_zero_totals_raises (wdb : WordsDb) (mdb : MsgDb)
    (mail : Mail) (m : Nat)
    (h0 : spam_total mdb = 0 ∨ ham_total mdb = 0)
    (hw : ∃ w ∈ mail.tokens, (alookup w wdb).isSome) :
    probe wdb mdb mail m = .error .zeroDivisionError := by
  unfold probe
  rw [collectPs_zero_total_error wdb _ _ h0 mail.tokens hw]

/-- Witness for C4's amended theorem. -/
theorem probe_zero_totals_raises_witness :
    (spam_total [] = 0 ∨ ham_total [] = 0)
    ∧ probe [("aaaa", (0, 1, 0))] [] ⟨none, "d", "f", ["aaaa"]⟩ 20
        = .error .zeroDivisionError :=
  ⟨Or.inl rfl,
   probe_zero_totals_raises [("aaaa", (0, 1, 0))] [] ⟨none, "d", "f", ["aaaa"]⟩ 20
     (Or.inl rfl) ⟨"aaaa", by decide, by decide⟩⟩

/-- C5 counterexample: with positive totals, a stored token whose two
counts are both zero makes `probe` raise `ZeroDivisionError` — the
`0/0` per-token ratio is not treated as probability 0. -/
theorem probe_zero_count_token_counterexample :
    probe [("aaaa", (0, 0, 0))] [("s1", true), ("h1", false)]
        ⟨none, "d", "f", ["aaaa"]⟩ 20
      = .error .zeroDivisionError := by
  have hst : spam_total [("s1", true), ("h1", false)] ≠ 0 := by decide
  have hht : ham_total [("s1", true), ("h1", false)] ≠ 0 := by decide
  unfold probe
  rw [collectPs_zero_zero_token_error _ _ _ hst hht _
    ⟨"aaaa", by decide, 0, by decide⟩]

/-- C5 (amended): with positive spam and ham totals, a stored token
whose `spamCount` and `hamCount` are both zero causes `probe` to raise
`ZeroDivisionError` (the per-token ratio is `0/0`); no probability is
returned for such a message. -/
theorem probe_zero_count_token_raises (wdb : WordsDb) (mdb : MsgDb)
    (mail : Mail) (m : Nat)
    (hst : spam_total mdb ≠ 0) (hht : ham_total mdb ≠ 0)
    (hw : ∃ w ∈ mail.tokens, ∃ d, alookup w wdb = some (d, 0, 0)) :
    probe wdb mdb mail m = .error .zeroDivisionError := by
  unfold probe
  rw [collectPs_zero_zero_token_error wdb _ _ hst hht mail.tokens hw]

/-- Witness for C5's amended theorem. -/
theorem probe_zero_count_token_raises_witness :
    spam_total [("s1", true), ("h1", false)] ≠ 0
    ∧ ham_total [("s1", true), ("h1", false)] ≠ 0
    ∧ probe [("bbbb", (3, 0, 0))] [("s1", true), ("h1", false)]
        ⟨none, "d", "f", ["bbbb"]⟩ 7
      = .error .zeroDivisionError :=
  ⟨by decide, by decide,
   probe_zero_count_token_raises [("bbbb", (3, 0, 0))] [("s1", true), ("h1", false)]
     ⟨none, "d", "f", ["bbbb"]⟩ 7 (by decide) (by decide)
     ⟨"bbbb", by decide, 3, by decide⟩⟩

/-- Sorting by the Python key `n - 0.5` is sorting ascending by value. -/
theorem mergeSort_key_half (l : List ℚ) :
    l.mergeSort (fun a b => decide (a - 1/2 ≤ b - 1/2))
      = l.mergeSort (fun a b => decide (a ≤ b)) := by
  have hcomp : (fun (a b : ℚ) => decide (a - 1/2 ≤ b - 1/2))
      = (fun (a b : ℚ) => decide (a ≤ b)) := by
    funext a b
    exact decide_eq_decide.mpr (sub_le_sub_iff_right (1/2))
  rw [hcomp]

/-- C7 counterexample: with `max_words = 0` and one collected
probability, the count `1` exceeds `2 * max_words = 0`, yet the Python
slice `all_p[-0:] + all_p[:0]` keeps the whole list, so one probability
(not zero) enters the product combiner. -/
theorem selectedPs_maxwords_zero_counterexample :
    ([(9 : ℚ)/10].length > 2 * 0)
    ∧ (selectedPs [(9 : ℚ)/10] 0).length ≠ 2 * 0 := by
  constructor
  · simp
  · simp [selectedPs, pySelect]

/-- C7 (amended): for `max_words ≥ 1`, when more than `2 * max_words`
probabilities were collected, the combiner receives exactly
`2 * max_words` of them — the `max_words` largest (the tail of the list
sorted ascending by value) followed by the `max_words` smallest (its
head); when the count is at or below `2 * max_words`, it receives all
of them in original collection order.  (For `max_words = 0` the Python
slice `all_p[-0:]` is the whole list, so the claim's bound fails
there.) -/
theorem selectedPs_extremes (l : List ℚ) (m : Nat) (hm : 1 ≤ m) :
    (l.length > 2 * m →
      selectedPs l m
        = (l.mergeSort (fun a b => decide (a ≤ b))).drop (l.length - m)
          ++ (l.mergeSort (fun a b => decide (a ≤ b))).take m
      ∧ (selectedPs l m).length = 2 * m)
    ∧ (l.length ≤ 2 * m → selectedPs l m = l) := by
  constructor
  · intro hlen
    have hsel : selectedPs l m = pySelect l m := by
      unfold selectedPs
      rw [if_pos (by omega : l.length > m * 2)]
    have hkey := mergeSort_key_half l
    have hlm : (l.mergeSort (fun a b => decide (a ≤ b))).length = l.length :=
      List.length_mergeSort ..
    constructor
    · rw [hsel]
      simp only [pySelect, hkey]
      rw [if_neg (by omega : ¬ m = 0), hlm]
    · rw [hsel]
      simp only [pySelect, hkey]
      rw [if_neg (by omega : ¬ m = 0)]
      rw [List.length_append, List.length_drop, List.length_take, hlm]
      omega
  · intro hlen
    unfold selectedPs
    rw [if_neg (by omega : ¬ l.length > m * 2)]

/-- Witness for C7's amended theorem: three collected probabilities,
`max_words = 1`, exactly two survive selection. -/
theorem selectedPs_extremes_witness :
    1 ≤ 1 ∧ ([(1 : ℚ)/2, 1/4, 3/4].length > 2 * 1)
    ∧ (selectedPs [(1 : ℚ)/2, 1/4, 3/4] 1).length = 2 * 1 :=
  ⟨le_refl 1, by simp,
   ((selectedPs_extremes [(1 : ℚ)/2, 1/4, 3/4] 1 (le_refl 1)).1 (by simp)).2⟩

/-- The collection loop skips tokens absent from the store: it only
depends on the subsequence of stored ("recognized") tokens. -/
theorem collectPs_filter_isSome (wdb : WordsDb) (st ht : Nat) :
    ∀ ws : List String,
      collectPs wdb st ht ws
        = collectPs wdb st ht (ws.filter (fun w => (alookup w wdb).isSome)) := by
  intro ws
  induction ws with
  | nil => rfl
  | cons w ws ih =>
    rw [List.filter_cons]
    cases ha : alookup w wdb with
    | none =>
      simp only [ha, Option.isSome_none, Bool.false_eq_true, if_false, ite_false]
      calc collectPs wdb st ht (w :: ws)
          = collectPs wdb st ht ws := by simp only [collectPs, ha]
        _ = _ := ih
    | some t =>
      obtain ⟨d, spam_no, ham_no⟩ := t
      simp only [ha, Option.isSome_some, if_true, ite_true]
      simp only [collectPs, ha]
      rw [ih]

/-- Removing duplicates commutes with filtering. -/
theorem dedup_filter_comm (p : String → Bool) :
    ∀ ws : List String, (ws.dedup).filter p = (ws.filter p).dedup := by
  intro ws
  induction ws with
  | nil => rfl
  | cons a ws ih =>
    rw [List.filter_cons]
    by_cases hmem : a ∈ ws
    · rw [List.dedup_cons_of_mem hmem]
      by_cases hp : p a
      · simp only [hp, if_true, ite_true]
        rw [List.dedup_cons_of_mem (List.mem_filter.mpr ⟨hmem, hp⟩)]
        exact ih
      · simp only [hp, Bool.false_eq_true, if_false, ite_false]
        exact ih
    · rw [List.dedup_cons_of_not_mem hmem]
      by_cases hp : p a
      · simp only [hp, if_true, ite_true]
        rw [List.filter_cons_of_pos hp, List.dedup_cons_of_not_mem
          (fun hin => hmem (List.mem_of_mem_filter hin))]
        rw [ih]
      · simp only [hp, Bool.false_eq_true, if_false, ite_false]
        rw [List.filter_cons_of_neg (by simpa using hp), ih]

/-- C9 counterexample: a duplicate occurrence of a stored token changes
the probe result — with one ham and one spam ledger entry and token
`"aaaa"` stored at counts `(spam=9, ham=1)` (per-token probability
`9/10`), a message containing the token twice scores `81/82`, while the
same message with duplicates removed scores `9/10`. -/
theorem probe_dedup_counterexample :
    probe [("aaaa", (0, 9, 1))] [("s1", true), ("h1", false)]
        ⟨some "m", "d", "f", ["aaaa", "aaaa"]⟩ 20
      ≠ probe [("aaaa", (0, 9, 1))] [("s1", true), ("h1", false)]
          ⟨some "m", "d", "f", (["aaaa", "aaaa"] : List String).dedup⟩ 20 := by
  have hd : (["aaaa", "aaaa"] : List String).dedup = ["aaaa"] := by
    decide
  have hc2 : collectPs [("aaaa", (0, 9, 1))]
      (spam_total [("s1", true), ("h1", false)])
      (ham_total [("s1", true), ("h1", false)]) ["aaaa", "aaaa"]
        = .ok [9/10, 9/10] := by
    have hone : spam_total [("s1", true), ("h1", false)] = 1 := by decide
    have htwo : ham_total [("s1", true), ("h1", false)] = 1 := by decide
    rw [hone, htwo]
    norm_num [collectPs, alookup, Except.map]
  have hc1 : collectPs [("aaaa", (0, 9, 1))]
      (spam_total [("s1", true), ("h1", false)])
      (ham_total [("s1", true), ("h1", false)]) ["aaaa"]
        = .ok [9/10] := by
    have hone : spam_total [("s1", true), ("h1", false)] = 1 := by decide
    have htwo : ham_total [("s1", true), ("h1", false)] = 1 := by decide
    rw [hone, htwo]
    norm_num [collectPs, alookup, Except.map]
  have h2 : probe [("aaaa", (0, 9, 1))] [("s1", true), ("h1", false)]
      ⟨some "m", "d", "f", ["aaaa", "aaaa"]⟩ 20 = .ok (81/82) := by
    rw [probe_collect_ok _ _ _ _ _ hc2]
    have hsel : selectedPs [(9:ℚ)/10, 9/10] 20 = [9/10, 9/10] := by
      simp [selectedPs]
    rw [hsel]
    norm_num [combineProduct]
  have h1 : probe [("aaaa", (0, 9, 1))] [("s1", true), ("h1", false)]
      ⟨some "m", "d", "f", (["aaaa", "aaaa"] : List String).dedup⟩ 20
        = .ok (9/10) := by
    rw [show (⟨some "m", "d", "f", (["aaaa", "aaaa"] : List String).dedup⟩ : Mail)
      = ⟨some "m", "d", "f", ["aaaa"]⟩ by rw [hd]]
    rw [probe_collect_ok _ _ _ _ _ hc1]
    have hsel : selectedPs [(9:ℚ)/10] 20 = [9/10] := by
      simp [selectedPs]
    rw [hsel]
    norm_num [combineProduct]
  rw [h1, h2]
  simp only [ne_eq, Except.ok.injEq]
  norm_num

/-- C9 (amended): per-token probabilities are looked up by key, so equal
tokens contribute equal values, but each occurrence contributes its own
factor; removing duplicate occurrences leaves the probe result
unchanged whenever no token that is present in the token store occurs
more than once in the message.  (Duplicates of stored tokens change the
result in general, as the counterexample shows, though not always — a
duplicated token at per-token probability exactly `1/2` leaves the
score at `1/2`.) -/
theorem probe_dedup_of_nodup_recognized (wdb : WordsDb) (mdb : MsgDb)
    (mail : Mail) (m : Nat)
    (h : (mail.tokens.filter (fun w => (alookup w wdb).isSome)).Nodup) :
    probe wdb mdb mail m
      = probe wdb mdb { mail with tokens := mail.tokens.dedup } m := by
  have hcol : collectPs wdb (spam_total mdb) (ham_total mdb) mail.tokens
      = collectPs wdb (spam_total mdb) (ham_total mdb) mail.tokens.dedup := by
    rw [collectPs_filter_isSome _ _ _ mail.tokens,
      collectPs_filter_isSome _ _ _ mail.tokens.dedup,
      dedup_filter_comm, List.dedup_eq_self.mpr h]
  unfold probe
  rw [hcol]

/-- Witness for C9's amended theorem. -/
theorem probe_dedup_of_nodup_recognized_witness :
    (((⟨some "m", "d", "f", ["aaaa", "bbbb"]⟩ : Mail).tokens.filter
        (fun w => (alookup w ([("aaaa", (0, 9, 1))] : WordsDb)).isSome)).Nodup)
    ∧ probe [("aaaa", (0, 9, 1))] [("s1", true), ("h1", false)]
        ⟨some "m", "d", "f", ["aaaa", "bbbb"]⟩ 20
      = probe [("aaaa", (0, 9, 1))] [("s1", true), ("h1", false)]
          ⟨some "m", "d", "f",
            (⟨some "m", "d", "f", ["aaaa", "bbbb"]⟩ : Mail).tokens.dedup⟩ 20 :=
  ⟨by decide,
   probe_dedup_of_nodup_recognized [("aaaa", (0, 9, 1))]
     [("s1", true), ("h1", false)] ⟨some "m", "d", "f", ["aaaa", "bbbb"]⟩ 20
     (by decide)⟩
